import Mathlib

/-!
Shallow embedding of the MemStorage class of the REUNITE digital
lost-and-found server storage module, together with the spec-side
predicates its contract is checked against.

Modelling conventions:
* JS Date values are nonnegative millisecond timestamps (Nat).
* A JS Map with numeric keys is an insertion-ordered association list;
  set on an existing key replaces the value in place, set on a fresh key
  appends, delete removes the entry.
* undefined and null optional fields are both Option.none; the JS
  truthiness tests of the source (if (options.status), if (options.limit),
  string || null) are modelled explicitly: an empty string and the number
  zero are falsy, arrays and Date objects are always truthy.
* The sessionStore field is an external collaborator and is omitted.
-/

/-- JS Date values are modelled as nonnegative millisecond timestamps. -/
abbrev Time := Nat

/-- Abstraction of the calendar-day bucket computed by Date.toDateString:
two timestamps compare equal exactly when they fall on the same calendar
day. -/
def calendarDay (t : Time) : Nat := t / 86400000

structure User where
  id : Nat
  username : String
  password : String
  email : String
  name : String
  createdAt : Time
deriving DecidableEq

structure InsertUser where
  username : String
  password : String
  email : String
  name : String
deriving DecidableEq

structure Item where
  id : Nat
  userId : Nat
  name : String
  type : String
  description : String
  status : String
  date : Time
  location : String
  locationDetails : Option String
  coordinates : Option (Int × Int)
  images : Option (List String)
  contactName : String
  contactEmail : String
  views : Nat
  createdAt : Time
deriving DecidableEq

structure InsertItem where
  userId : Nat
  name : String
  type : String
  description : String
  status : String
  date : Time
  location : String
  locationDetails : Option String
  coordinates : Option (Int × Int)
  images : Option (List String)
  contactName : String
  contactEmail : String
deriving DecidableEq

structure Message where
  id : Nat
  itemId : Nat
  fromUserId : Nat
  toUserId : Nat
  content : String
  read : Bool
  createdAt : Time
deriving DecidableEq

structure InsertMessage where
  itemId : Nat
  fromUserId : Nat
  toUserId : Nat
  content : String
deriving DecidableEq

/-- Partial Item: every key of Item optional, as in a TS Partial payload.
A nullable field patched to null is some none; an absent key is none. -/
structure ItemPatch where
  id : Option Nat
  userId : Option Nat
  name : Option String
  type : Option String
  description : Option String
  status : Option String
  date : Option Time
  location : Option String
  locationDetails : Option (Option String)
  coordinates : Option (Option (Int × Int))
  images : Option (Option (List String))
  contactName : Option String
  contactEmail : Option String
  views : Option Nat
  createdAt : Option Time
deriving DecidableEq

/-- The all-absent patch. -/
def ItemPatch.empty : ItemPatch :=
  { id := none, userId := none, name := none, type := none,
    description := none, status := none, date := none, location := none,
    locationDetails := none, coordinates := none, images := none,
    contactName := none, contactEmail := none, views := none,
    createdAt := none }

/-- Insertion-ordered association list modelling a JS Map with Nat keys. -/
abbrev JsMap (α : Type) := List (Nat × α)

/-- map.get: the value stored at a key, if present. -/
def mapGet {α : Type} (m : JsMap α) (k : Nat) : Option α :=
  (m.find? (fun e => e.1 == k)).map (fun e => e.2)

/-- map.set: replace in place at an existing key, append at a fresh key. -/
def mapSet {α : Type} : JsMap α → Nat → α → JsMap α
  | [], k, v => [(k, v)]
  | e :: es, k, v => if e.1 = k then (k, v) :: es else e :: mapSet es k v

/-- map.delete, without its Boolean result. -/
def mapDelete {α : Type} : JsMap α → Nat → JsMap α
  | [], _ => []
  | e :: es, k => if e.1 = k then es else e :: mapDelete es k

/-- Array.from of map.values in insertion order. -/
def mapValues {α : Type} (m : JsMap α) : List α := m.map (fun e => e.2)

/-- JS String.prototype.includes on lists of characters. -/
def listContainsSeq {α : Type} [DecidableEq α] (needle : List α) : List α → Bool
  | [] => needle.isEmpty
  | x :: xs => needle.isPrefixOf (x :: xs) || listContainsSeq needle xs

/-- hay.includes(needle) for strings. -/
def strIncludes (hay needle : String) : Bool := listContainsSeq needle.data hay.data

/-- JS toLowerCase, modelled by lowercasing each character. -/
def strToLower (s : String) : String := String.mk (s.data.map Char.toLower)

/-- The comparator b.createdAt.getTime() minus a.createdAt.getTime():
sorts items most recent first. -/
def itemRecencyOrder (a b : Item) : Prop := b.createdAt ≤ a.createdAt

instance : DecidableRel itemRecencyOrder := fun a b => Nat.decLe b.createdAt a.createdAt

instance : IsTotal Item itemRecencyOrder := ⟨fun a b => Nat.le_total b.createdAt a.createdAt⟩

instance : IsTrans Item itemRecencyOrder := ⟨fun _ _ _ hab hbc => Nat.le_trans hbc hab⟩

/-- items.sort by createdAt descending. -/
def sortByCreatedAtDesc (l : List Item) : List Item :=
  List.insertionSort itemRecencyOrder l

/-- The same recency comparator on messages. -/
def messageRecencyOrder (a b : Message) : Prop := b.createdAt ≤ a.createdAt

instance : DecidableRel messageRecencyOrder := fun a b => Nat.decLe b.createdAt a.createdAt

/-- messages.sort by createdAt descending. -/
def sortMessagesByCreatedAtDesc (l : List Message) : List Message :=
  List.insertionSort messageRecencyOrder l

/-- arr.slice(start, stop): the elements from index start up to stop,
exclusive, clamped to the array. -/
def jsSlice {α : Type} (l : List α) (start stop : Nat) : List α :=
  (l.take stop).drop start

/-- One if (options.field) guarded filter block of the source: the filter
applies only when the optional string is truthy, that is, present and
nonempty. -/
def truthyStringFilter (ostr : Option String) (test : Item → String → Bool)
    (l : List Item) : List Item :=
  match ostr with
  | some st => if st == "" then l else l.filter (fun it => test it st)
  | none => l

/-- One filter block guarded by presence alone (options.userId tested
against undefined, options.date a truthy Date object). -/
def presentFilter {β : Type} (ov : Option β) (test : Item → β → Bool)
    (l : List Item) : List Item :=
  match ov with
  | some v => l.filter (fun it => test it v)
  | none => l

/-- The entity state of the MemStorage class: three insertion-ordered maps
and the three id counters, initialized to one by the constructor. -/
structure MemStorage where
  users : JsMap User
  items : JsMap Item
  messages : JsMap Message
  userIdCounter : Nat
  itemIdCounter : Nat
  messageIdCounter : Nat
deriving DecidableEq

/-- The freshly constructed store. -/
def MemStorage.init : MemStorage :=
  { users := [], items := [], messages := [],
    userIdCounter := 1, itemIdCounter := 1, messageIdCounter := 1 }

namespace MemStorage

def getUser (s : MemStorage) (id : Nat) : Option User :=
  mapGet s.users id

def getUserByUsername (s : MemStorage) (username : String) : Option User :=
  (mapValues s.users).find? (fun u => u.username == username)

def getUserByEmail (s : MemStorage) (email : String) : Option User :=
  (mapValues s.users).find? (fun u => u.email == email)

def createUser (s : MemStorage) (now : Time) (d : InsertUser) : User × MemStorage :=
  let id := s.userIdCounter
  let u : User :=
    { id := id, username := d.username, password := d.password,
      email := d.email, name := d.name, createdAt := now }
  (u, { s with users := mapSet s.users id u, userIdCounter := id + 1 })

def getItem (s : MemStorage) (id : Nat) : Option Item :=
  mapGet s.items id

structure GetItemsOptions where
  status : Option String
  type : Option String
  userId : Option Nat
  limit : Option Nat
  offset : Option Nat
deriving DecidableEq

/-- The all-absent options object. -/
def GetItemsOptions.empty : GetItemsOptions :=
  { status := none, type := none, userId := none, limit := none, offset := none }

def getItems (s : MemStorage) (options : Option GetItemsOptions) : List Item :=
  match options with
  | none => mapValues s.items
  | some o =>
    let items1 := truthyStringFilter o.status (fun it st => it.status == st) (mapValues s.items)
    let items2 := truthyStringFilter o.type (fun it ty => it.type == ty) items1
    let items3 := presentFilter o.userId (fun it uid => it.userId == uid) items2
    let sorted := sortByCreatedAtDesc items3
    match o.limit with
    | some lim =>
      if lim == 0 then sorted
      else jsSlice sorted (o.offset.getD 0) (o.offset.getD 0 + lim)
    | none => sorted

def createItem (s : MemStorage) (now : Time) (d : InsertItem) : Item × MemStorage :=
  let id := s.itemIdCounter
  let images := d.images
  let locationDetails :=
    match d.locationDetails with
    | some str => if str == "" then none else some str
    | none => none
  let item : Item :=
    { id := id, userId := d.userId, name := d.name, type := d.type,
      description := d.description, status := d.status, date := d.date,
      location := d.location, locationDetails := locationDetails,
      coordinates := d.coordinates, images := images,
      contactName := d.contactName, contactEmail := d.contactEmail,
      views := 0, createdAt := now }
  (item, { s with items := mapSet s.items id item, itemIdCounter := id + 1 })

/-- The object spread of the existing item followed by the update payload:
every key present in the payload overwrites, every absent key is kept. -/
def mergeItem (it : Item) (p : ItemPatch) : Item :=
  { id := p.id.getD it.id, userId := p.userId.getD it.userId,
    name := p.name.getD it.name, type := p.type.getD it.type,
    description := p.description.getD it.description,
    status := p.status.getD it.status, date := p.date.getD it.date,
    location := p.location.getD it.location,
    locationDetails := p.locationDetails.getD it.locationDetails,
    coordinates := p.coordinates.getD it.coordinates,
    images := p.images.getD it.images,
    contactName := p.contactName.getD it.contactName,
    contactEmail := p.contactEmail.getD it.contactEmail,
    views := p.views.getD it.views,
    createdAt := p.createdAt.getD it.createdAt }

def updateItem (s : MemStorage) (id : Nat) (p : ItemPatch) : Option Item × MemStorage :=
  match mapGet s.items id with
  | none => (none, s)
  | some it =>
    let updated := mergeItem it p
    (some updated, { s with items := mapSet s.items id updated })

def deleteItem (s : MemStorage) (id : Nat) : Bool × MemStorage :=
  ((mapGet s.items id).isSome, { s with items := mapDelete s.items id })

def incrementItemViews (s : MemStorage) (id : Nat) : MemStorage :=
  match mapGet s.items id with
  | some it => { s with items := mapSet s.items id { it with views := it.views + 1 } }
  | none => s

structure SearchItemsOptions where
  status : Option String
  type : Option String
  date : Option Time
  location : Option String
deriving DecidableEq

/-- The all-absent search options object. -/
def SearchItemsOptions.empty : SearchItemsOptions :=
  { status := none, type := none, date := none, location := none }

def searchItems (s : MemStorage) (query : String) (options : Option SearchItemsOptions) :
    List Item :=
  let items1 := mapValues s.items
  let items2 :=
    if query == "" then items1
    else
      items1.filter (fun it =>
        strIncludes (strToLower it.name) (strToLower query) ||
        strIncludes (strToLower it.description) (strToLower query) ||
        strIncludes (strToLower it.location) (strToLower query))
  let items3 :=
    match options with
    | none => items2
    | some o =>
      let a := truthyStringFilter o.status (fun it st => it.status == st) items2
      let b := truthyStringFilter o.type (fun it ty => it.type == ty) a
      let c := presentFilter o.date (fun it dt => calendarDay it.date == calendarDay dt) b
      truthyStringFilter o.location
        (fun it loc => strIncludes (strToLower it.location) (strToLower loc)) c
  sortByCreatedAtDesc items3

def getMessage (s : MemStorage) (id : Nat) : Option Message :=
  mapGet s.messages id

def getMessages (s : MemStorage) (userId : Nat) : List Message :=
  sortMessagesByCreatedAtDesc
    ((mapValues s.messages).filter
      (fun m => m.toUserId == userId || m.fromUserId == userId))

def getMessagesByItem (s : MemStorage) (itemId : Nat) : List Message :=
  sortMessagesByCreatedAtDesc
    ((mapValues s.messages).filter (fun m => m.itemId == itemId))

def createMessage (s : MemStorage) (now : Time) (d : InsertMessage) :
    Message × MemStorage :=
  let id := s.messageIdCounter
  let m : Message :=
    { id := id, itemId := d.itemId, fromUserId := d.fromUserId,
      toUserId := d.toUserId, content := d.content, read := false,
      createdAt := now }
  (m, { s with messages := mapSet s.messages id m, messageIdCounter := id + 1 })

def markMessageAsRead (s : MemStorage) (id : Nat) : Bool × MemStorage :=
  match mapGet s.messages id with
  | none => (false, s)
  | some m => (true, { s with messages := mapSet s.messages id { m with read := true } })

end MemStorage

/-- A store mutation, as dispatched by the route layer; creation
operations carry the wall-clock timestamp they observe. -/
inductive Op where
  | opCreateUser (now : Time) (d : InsertUser)
  | opCreateItem (now : Time) (d : InsertItem)
  | opUpdateItem (id : Nat) (p : ItemPatch)
  | opDeleteItem (id : Nat)
  | opIncrementItemViews (id : Nat)
  | opCreateMessage (now : Time) (d : InsertMessage)
  | opMarkMessageAsRead (id : Nat)

def applyOp (s : MemStorage) : Op → MemStorage
  | .opCreateUser now d => (MemStorage.createUser s now d).2
  | .opCreateItem now d => (MemStorage.createItem s now d).2
  | .opUpdateItem id p => (MemStorage.updateItem s id p).2
  | .opDeleteItem id => (MemStorage.deleteItem s id).2
  | .opIncrementItemViews id => MemStorage.incrementItemViews s id
  | .opCreateMessage now d => (MemStorage.createMessage s now d).2
  | .opMarkMessageAsRead id => MemStorage.markMessageAsRead s id |>.2

def applyOps (s : MemStorage) (ops : List Op) : MemStorage :=
  ops.foldl applyOp s

/-- IDs handed out to created users along a run, in order. -/
def createdUserIds : MemStorage → List Op → List Nat
  | _, [] => []
  | s, op :: ops =>
    match op with
    | .opCreateUser now d =>
      (MemStorage.createUser s now d).1.id :: createdUserIds (applyOp s op) ops
    | _ => createdUserIds (applyOp s op) ops

/-- IDs handed out to created items along a run, in order. -/
def createdItemIds : MemStorage → List Op → List Nat
  | _, [] => []
  | s, op :: ops =>
    match op with
    | .opCreateItem now d =>
      (MemStorage.createItem s now d).1.id :: createdItemIds (applyOp s op) ops
    | _ => createdItemIds (applyOp s op) ops

/-- IDs handed out to created messages along a run, in order. -/
def createdMessageIds : MemStorage → List Op → List Nat
  | _, [] => []
  | s, op :: ops =>
    match op with
    | .opCreateMessage now d =>
      (MemStorage.createMessage s now d).1.id :: createdMessageIds (applyOp s op) ops
    | _ => createdMessageIds (applyOp s op) ops

/-! ## Spec-side predicates

These definitions follow the wording of the specification (amended where a
counterexample forces it) and are compared with the executable embedding
above. -/

/-- An optional string filter passes an item when it is absent, supplied
as the empty string (treated as absent), or satisfied by the item. -/
def truthyKeep (ostr : Option String) (test : Item → String → Bool) (it : Item) : Bool :=
  match ostr with
  | none => true
  | some st => st == "" || test it st

/-- An optional filter tested by presence alone passes an item when it is
absent or satisfied by the item. -/
def presenceKeep {β : Type} (ov : Option β) (test : Item → β → Bool) (it : Item) : Bool :=
  match ov with
  | none => true
  | some v => test it v

/-- Spec-side keep predicate for getItems: the status, type and userId
equality filters combined with logical AND, a status or type filter
supplied as the empty string being treated as absent. -/
def specGetItemsKeep (o : MemStorage.GetItemsOptions) (it : Item) : Bool :=
  truthyKeep o.status (fun it st => it.status == st) it &&
  truthyKeep o.type (fun it ty => it.type == ty) it &&
  presenceKeep o.userId (fun it uid => it.userId == uid) it

/-- Spec-side keep predicate for searchItems: a nonempty query must occur
case-insensitively in the name, the description or the location; the
status and type equality filters, the calendar-day date filter and the
case-insensitive location substring filter combine with logical AND, a
status, type or location filter supplied as the empty string being treated
as absent. -/
def specSearchKeep (query : String) (o : Option MemStorage.SearchItemsOptions)
    (it : Item) : Bool :=
  (query == "" ||
    (strIncludes (strToLower it.name) (strToLower query) ||
     strIncludes (strToLower it.description) (strToLower query) ||
     strIncludes (strToLower it.location) (strToLower query))) &&
  (match o with
   | none => true
   | some o =>
     truthyKeep o.status (fun it st => it.status == st) it &&
     truthyKeep o.type (fun it ty => it.type == ty) it &&
     presenceKeep o.date (fun it dt => calendarDay it.date == calendarDay dt) it &&
     truthyKeep o.location (fun it loc => strIncludes (strToLower it.location) (strToLower loc)) it)

/-- A list of items ordered by createdAt descending, most recent first. -/
def SortedByCreatedAtDesc (l : List Item) : Prop :=
  l.Sorted itemRecencyOrder

/-! ## Association-map lemmas -/

theorem mapGet_cons {α : Type} (e : Nat × α) (es : JsMap α) (k : Nat) :
    mapGet (e :: es) k = if e.1 = k then some e.2 else mapGet es k := by
  by_cases h : e.1 = k
  · simp [mapGet, List.find?, h]
  · have hb : (e.1 == k) = false := by simpa using h
    simp [mapGet, List.find?, hb, h]

theorem mapGet_mapSet_self {α : Type} (m : JsMap α) (k : Nat) (v : α) :
    mapGet (mapSet m k v) k = some v := by
  induction m with
  | nil => simp [mapSet, mapGet_cons]
  | cons e es ih =>
    by_cases h : e.1 = k
    · simp [mapSet, h, mapGet_cons]
    · simp [mapSet, h, mapGet_cons, ih]

theorem mapGet_mapSet_ne {α : Type} (m : JsMap α) (k k' : Nat) (v : α)
    (hne : k' ≠ k) : mapGet (mapSet m k v) k' = mapGet m k' := by
  induction m with
  | nil => simp [mapSet, mapGet_cons, Ne.symm hne, mapGet]
  | cons e es ih =>
    by_cases h : e.1 = k
    · simp [mapSet, h, mapGet_cons, Ne.symm hne]
    · simp [mapSet, h, mapGet_cons, ih]

theorem mapGet_mapDelete_self {α : Type} (m : JsMap α) (k : Nat)
    (huniq : (m.map Prod.fst).Nodup) :
    mapGet (mapDelete m k) k = none := by
  induction m with
  | nil => simp [mapGet, mapDelete]
  | cons e es ih =>
    have huniq' : e.1 ∉ es.map Prod.fst ∧ (es.map Prod.fst).Nodup := by
      simpa [List.nodup_cons] using huniq
    by_cases h : e.1 = k
    · have hfind : es.find? (fun e' => e'.1 == k) = none := by
        rw [List.find?_eq_none]
        intro x hx
        simp only [beq_iff_eq]
        intro hxk
        exact huniq'.1 (h ▸ hxk ▸ List.mem_map_of_mem Prod.fst hx)
      simp [mapDelete, h, mapGet, hfind]
    · simp [mapDelete, h, mapGet_cons, ih huniq'.2]

theorem mapGet_mapDelete_ne {α : Type} (m : JsMap α) (k k' : Nat)
    (hne : k' ≠ k) : mapGet (mapDelete m k) k' = mapGet m k' := by
  induction m with
  | nil => rfl
  | cons e es ih =>
    by_cases h : e.1 = k
    · simp [mapDelete, h, mapGet_cons, Ne.symm hne]
    · simp [mapDelete, h, mapGet_cons, ih]

theorem mapDelete_of_get_none {α : Type} (m : JsMap α) (k : Nat)
    (h : mapGet m k = none) : mapDelete m k = m := by
  induction m with
  | nil => rfl
  | cons e es ih =>
    rw [mapGet_cons] at h
    by_cases he : e.1 = k
    · simp [he] at h
    · rw [if_neg he] at h
      simp [mapDelete, he, ih h]

theorem mapGet_some_mem {α : Type} (m : JsMap α) (k : Nat) (v : α)
    (h : mapGet m k = some v) : (k, v) ∈ m := by
  induction m with
  | nil => simp [mapGet] at h
  | cons e es ih =>
    rw [mapGet_cons] at h
    by_cases he : e.1 = k
    · rw [if_pos he] at h
      have hv : e.2 = v := by simpa using h
      have : (k, v) = e := by
        obtain ⟨e1, e2⟩ := e
        simp_all
      exact this ▸ List.mem_cons_self _ _
    · rw [if_neg he] at h
      exact List.mem_cons_of_mem _ (ih h)

theorem mem_mapSet {α : Type} (m : JsMap α) (k : Nat) (v : α) (e : Nat × α) :
    e ∈ mapSet m k v → e = (k, v) ∨ e ∈ m := by
  induction m with
  | nil =>
    intro h
    simpa [mapSet] using h
  | cons e' es ih =>
    intro h
    by_cases he : e'.1 = k
    · simp only [mapSet, if_pos he] at h
      rcases List.mem_cons.mp h with h | h
      · exact Or.inl h
      · exact Or.inr (List.mem_cons_of_mem _ h)
    · simp only [mapSet, if_neg he] at h
      rcases List.mem_cons.mp h with h | h
      · exact Or.inr (h ▸ List.mem_cons_self _ _)
      · rcases ih h with h' | h'
        · exact Or.inl h'
        · exact Or.inr (List.mem_cons_of_mem _ h')

/-! ## Filter-stage lemmas -/

theorem truthyStringFilter_eq (ostr : Option String) (test : Item → String → Bool)
    (l : List Item) :
    truthyStringFilter ostr test l = l.filter (truthyKeep ostr test) := by
  cases ostr with
  | none =>
    exact (List.filter_eq_self.mpr (fun a _ => by simp [truthyKeep])).symm
  | some st =>
    by_cases h : st = ""
    · simp only [truthyStringFilter, h, if_pos]
      have : ∀ a : Item, truthyKeep (some "") test a = true := fun a => by
        simp [truthyKeep]
      simp [List.filter_eq_self.mpr (fun a _ => this a)]
    · have hb : (st == "") = false := by simpa using h
      simp only [truthyStringFilter, hb, Bool.false_eq_true, if_false]
      exact List.filter_congr (fun a _ => by simp [truthyKeep, hb])

theorem presentFilter_eq {β : Type} (ov : Option β) (test : Item → β → Bool)
    (l : List Item) :
    presentFilter ov test l = l.filter (presenceKeep ov test) := by
  cases ov with
  | none =>
    exact (List.filter_eq_self.mpr (fun a _ => by simp [presenceKeep])).symm
  | some v =>
    exact List.filter_congr (fun a _ => by simp [presenceKeep])

theorem getItemsChain_eq (s : MemStorage) (o : MemStorage.GetItemsOptions) :
    presentFilter o.userId (fun it uid => it.userId == uid)
      (truthyStringFilter o.type (fun it ty => it.type == ty)
        (truthyStringFilter o.status (fun it st => it.status == st) (mapValues s.items)))
    = (mapValues s.items).filter (specGetItemsKeep o) := by
  rw [truthyStringFilter_eq, truthyStringFilter_eq, presentFilter_eq,
    List.filter_filter, List.filter_filter]
  congr 1
  funext it
  simp only [specGetItemsKeep]
  cases truthyKeep o.status (fun it st => it.status == st) it <;>
    cases truthyKeep o.type (fun it ty => it.type == ty) it <;>
    cases presenceKeep o.userId (fun it uid => it.userId == uid) it <;>
    rfl

/-- The sort of the source is a permutation of its input. -/
theorem sortByCreatedAtDesc_perm (l : List Item) : (sortByCreatedAtDesc l).Perm l :=
  List.perm_insertionSort itemRecencyOrder l

/-- The sort of the source orders items by createdAt descending. -/
theorem sortByCreatedAtDesc_sorted (l : List Item) :
    SortedByCreatedAtDesc (sortByCreatedAtDesc l) :=
  List.sorted_insertionSort itemRecencyOrder l

/-! ## Concrete stores for witnesses and counterexamples -/

/-- A lost item created at time 100. -/
def itemA : Item :=
  { id := 1, userId := 1, name := "Navy Blue Backpack", type := "Personal Items",
    description := "Lost my navy blue backpack near the lake area",
    status := "lost", date := 172800000, location := "India Gate, New Delhi",
    locationDetails := none, coordinates := none, images := none,
    contactName := "Raj Sharma", contactEmail := "raj", views := 0,
    createdAt := 100 }

/-- A found item created at time 200, more recent than itemA. -/
def itemB : Item :=
  { id := 2, userId := 1, name := "Car Keys with Red Keychain",
    type := "Personal Items", description := "Found these keys at a table",
    status := "found", date := 86400000, location := "MG Road, Bangalore",
    locationDetails := none, coordinates := none, images := none,
    contactName := "Priya Patel", contactEmail := "priya", views := 0,
    createdAt := 200 }

/-- A store holding only itemA. -/
def st1 : MemStorage :=
  { users := [], items := [(1, itemA)], messages := [],
    userIdCounter := 1, itemIdCounter := 2, messageIdCounter := 1 }

/-- A store holding itemA and itemB. -/
def st2 : MemStorage :=
  { users := [], items := [(1, itemA), (2, itemB)], messages := [],
    userIdCounter := 1, itemIdCounter := 3, messageIdCounter := 1 }


/-! ## Claim C10 -/

/-- C10: a status, type or (for searchItems) location filter supplied as
the empty string is treated as if it were absent because presence is
tested by truthiness, and a limit equal to zero performs no pagination:
each such call equals the call with the option absent. -/
theorem empty_string_filters_and_zero_limit_ignored
    (s : MemStorage) (o : MemStorage.GetItemsOptions) (q : String)
    (so : MemStorage.SearchItemsOptions) :
    MemStorage.getItems s (some { o with status := some "" })
      = MemStorage.getItems s (some { o with status := none })
    ∧ MemStorage.getItems s (some { o with type := some "" })
      = MemStorage.getItems s (some { o with type := none })
    ∧ MemStorage.getItems s (some { o with limit := some 0 })
      = MemStorage.getItems s (some { o with limit := none })
    ∧ MemStorage.searchItems s q (some { so with status := some "" })
      = MemStorage.searchItems s q (some { so with status := none })
    ∧ MemStorage.searchItems s q (some { so with type := some "" })
      = MemStorage.searchItems s q (some { so with type := none })
    ∧ MemStorage.searchItems s q (some { so with location := some "" })
      = MemStorage.searchItems s q (some { so with location := none }) := by
  obtain ⟨ost, oty, ouid, olim, ooff⟩ := o
  obtain ⟨sst, sty, sdt, sloc⟩ := so
  refine ⟨?_, ?_, ?_, ?_, ?_, ?_⟩ <;>
    simp [MemStorage.getItems, MemStorage.searchItems, truthyStringFilter]

/-! ## Claim C1 -/

/-- C1 counterexample: on a store holding one item of status lost, a
supplied empty-string status equality filter keeps that item even though
the item does not pass the filter, and a supplied limit of zero does not
slice the result to the empty sequence. -/
theorem getItems_claim_counterexample :
    MemStorage.getItems st1
        (some { status := some "", type := none, userId := none,
                limit := none, offset := none })
      = [itemA]
    ∧ itemA.status ≠ ""
    ∧ MemStorage.getItems st1
        (some { status := none, type := none, userId := none,
                limit := some 0, offset := some 0 })
      = [itemA] := by
  decide

/-- C1 amended: for every store state, when an options object is supplied
the result is a permutation of the items passing the supplied status, type
and userId equality filters (a status or type filter supplied as the empty
string being treated as absent), ordered by createdAt descending; when a
nonzero limit is present the sorted filtered result is sliced from offset,
default zero, to offset plus limit exclusive, and an out-of-range offset
yields the empty sequence; when no options object is supplied the full set
is returned in insertion order, with no ordering guarantee. -/
theorem getItems_amended_contract (s : MemStorage) (o : MemStorage.GetItemsOptions) :
    MemStorage.getItems s none = mapValues s.items
    ∧ ((o.limit = none ∨ o.limit = some 0) →
        (MemStorage.getItems s (some o)).Perm
            ((mapValues s.items).filter (specGetItemsKeep o))
          ∧ SortedByCreatedAtDesc (MemStorage.getItems s (some o)))
    ∧ (∀ lim, o.limit = some lim → lim ≠ 0 →
        MemStorage.getItems s (some o)
            = ((sortByCreatedAtDesc
                  ((mapValues s.items).filter (specGetItemsKeep o))).drop
                (o.offset.getD 0)).take lim
          ∧ (sortByCreatedAtDesc
                ((mapValues s.items).filter (specGetItemsKeep o))).Perm
              ((mapValues s.items).filter (specGetItemsKeep o))
          ∧ SortedByCreatedAtDesc
              (sortByCreatedAtDesc ((mapValues s.items).filter (specGetItemsKeep o)))
          ∧ (((mapValues s.items).filter (specGetItemsKeep o)).length ≤ o.offset.getD 0 →
              MemStorage.getItems s (some o) = [])) := by
  refine ⟨rfl, ?_, ?_⟩
  · intro hlim
    have hres : MemStorage.getItems s (some o)
        = sortByCreatedAtDesc ((mapValues s.items).filter (specGetItemsKeep o)) := by
      rcases hlim with h | h <;> simp [MemStorage.getItems, h, getItemsChain_eq]
    rw [hres]
    exact ⟨sortByCreatedAtDesc_perm _, sortByCreatedAtDesc_sorted _⟩
  · intro lim hlim hne
    have hb : (lim == 0) = false := by simpa using hne
    have hres : MemStorage.getItems s (some o)
        = jsSlice (sortByCreatedAtDesc ((mapValues s.items).filter (specGetItemsKeep o)))
            (o.offset.getD 0) (o.offset.getD 0 + lim) := by
      simp [MemStorage.getItems, hlim, hb, getItemsChain_eq]
    refine ⟨?_, sortByCreatedAtDesc_perm _, sortByCreatedAtDesc_sorted _, ?_⟩
    · rw [hres, jsSlice, List.drop_take]
      congr 1
      omega
    · intro hlen
      rw [hres, jsSlice]
      apply List.drop_eq_nil_of_le
      have hlensort :
          (sortByCreatedAtDesc ((mapValues s.items).filter (specGetItemsKeep o))).length
            = ((mapValues s.items).filter (specGetItemsKeep o)).length :=
        (sortByCreatedAtDesc_perm _).length_eq
      calc (List.take (o.offset.getD 0 + lim)
              (sortByCreatedAtDesc ((mapValues s.items).filter (specGetItemsKeep o)))).length
          ≤ (sortByCreatedAtDesc ((mapValues s.items).filter (specGetItemsKeep o))).length := by
            rw [List.length_take]
            exact min_le_right _ _
        _ ≤ o.offset.getD 0 := by rw [hlensort]; exact hlen

/-- C1 amended witness: on a two-item store, limit two and offset one
return exactly the item ranked second by recency, and the filterless call
with no limit is a permutation of the full set. -/
theorem getItems_amended_contract_witness :
    MemStorage.getItems st2
        (some { status := none, type := none, userId := none,
                limit := some 2, offset := some 1 })
      = ((sortByCreatedAtDesc ((mapValues st2.items).filter (specGetItemsKeep
            { status := none, type := none, userId := none,
              limit := some 2, offset := some 1 }))).drop 1).take 2
    ∧ MemStorage.getItems st2
        (some { status := none, type := none, userId := none,
                limit := some 2, offset := some 1 })
      = [itemA]
    ∧ (MemStorage.getItems st2 (some MemStorage.GetItemsOptions.empty)).Perm
        [itemA, itemB] := by
  have h := (getItems_amended_contract st2
    { status := none, type := none, userId := none,
      limit := some 2, offset := some 1 }).2.2 2 rfl (by decide)
  have h2 := (getItems_amended_contract st2 MemStorage.GetItemsOptions.empty).2.1
    (Or.inl rfl)
  exact ⟨h.1, by decide, h2.1.trans (by decide)⟩

/-! ## Claim C2 -/

theorem queryFilter_eq (q : String) (l : List Item) :
    (if q == "" then l
     else l.filter (fun it =>
       strIncludes (strToLower it.name) (strToLower q) ||
       strIncludes (strToLower it.description) (strToLower q) ||
       strIncludes (strToLower it.location) (strToLower q)))
    = l.filter (fun it => q == "" ||
        (strIncludes (strToLower it.name) (strToLower q) ||
         strIncludes (strToLower it.description) (strToLower q) ||
         strIncludes (strToLower it.location) (strToLower q))) := by
  by_cases h : q = ""
  · subst h
    simp
  · have hb : (q == "") = false := by simpa using h
    rw [if_neg (by simp [hb])]
    exact List.filter_congr (fun a _ => by simp [hb])

theorem searchItems_eq_sort_filter (s : MemStorage) (q : String)
    (o : Option MemStorage.SearchItemsOptions) :
    MemStorage.searchItems s q o
      = sortByCreatedAtDesc ((mapValues s.items).filter (specSearchKeep q o)) := by
  cases o with
  | none =>
    simp only [MemStorage.searchItems]
    congr 1
    rw [queryFilter_eq]
    exact List.filter_congr (fun a _ => by simp [specSearchKeep])
  | some so =>
    simp only [MemStorage.searchItems]
    congr 1
    rw [queryFilter_eq, truthyStringFilter_eq, truthyStringFilter_eq, presentFilter_eq,
      truthyStringFilter_eq, List.filter_filter, List.filter_filter,
      List.filter_filter, List.filter_filter]
    refine List.filter_congr (fun a _ => ?_)
    simp only [specSearchKeep]
    cases hQ : (q == "" ||
        (strIncludes (strToLower a.name) (strToLower q) ||
         strIncludes (strToLower a.description) (strToLower q) ||
         strIncludes (strToLower a.location) (strToLower q))) <;>
      cases hS : truthyKeep so.status (fun it st => it.status == st) a <;>
      cases hT : truthyKeep so.type (fun it ty => it.type == ty) a <;>
      cases hD : presenceKeep so.date
        (fun it dt => calendarDay it.date == calendarDay dt) a <;>
      cases hL : truthyKeep so.location
        (fun it loc => strIncludes (strToLower it.location) (strToLower loc)) a <;>
      simp [hQ, hS, hT, hD, hL]

/-- C2 counterexample: with an empty query and a supplied empty-string
status filter, the result keeps an item whose status is not the empty
string, so the supplied status equality filter was not applied. -/
theorem searchItems_claim_counterexample :
    MemStorage.searchItems st1 ""
        (some { status := some "", type := none, date := none, location := none })
      = [itemA]
    ∧ itemA.status ≠ "" := by
  decide

/-- C2 amended: for every store state, query and filter, the result is a
permutation of the items that pass the nonempty-query case-insensitive
substring test on name, description or location, the status and type
equality filters, the calendar-day date filter and the case-insensitive
location substring filter, all combined with logical AND, where an empty
query imposes no text filter and a status, type or location filter
supplied as the empty string is treated as absent; the result is always
sorted by createdAt descending. -/
theorem searchItems_amended_contract (s : MemStorage) (q : String)
    (o : Option MemStorage.SearchItemsOptions) :
    (MemStorage.searchItems s q o).Perm
        ((mapValues s.items).filter (specSearchKeep q o))
    ∧ SortedByCreatedAtDesc (MemStorage.searchItems s q o) := by
  rw [searchItems_eq_sort_filter]
  exact ⟨sortByCreatedAtDesc_perm _, sortByCreatedAtDesc_sorted _⟩

/-! ## Claim C3 -/

theorem applyOp_counters_mono (s : MemStorage) (op : Op) :
    s.userIdCounter ≤ (applyOp s op).userIdCounter
    ∧ s.itemIdCounter ≤ (applyOp s op).itemIdCounter
    ∧ s.messageIdCounter ≤ (applyOp s op).messageIdCounter := by
  cases op with
  | opCreateUser now d => exact ⟨Nat.le_succ _, Nat.le_refl _, Nat.le_refl _⟩
  | opCreateItem now d => exact ⟨Nat.le_refl _, Nat.le_succ _, Nat.le_refl _⟩
  | opCreateMessage now d => exact ⟨Nat.le_refl _, Nat.le_refl _, Nat.le_succ _⟩
  | opUpdateItem id p =>
    simp only [applyOp, MemStorage.updateItem]
    cases mapGet s.items id <;> simp
  | opDeleteItem id => exact ⟨Nat.le_refl _, Nat.le_refl _, Nat.le_refl _⟩
  | opIncrementItemViews id =>
    simp only [applyOp, MemStorage.incrementItemViews]
    cases mapGet s.items id <;> simp
  | opMarkMessageAsRead id =>
    simp only [applyOp, MemStorage.markMessageAsRead]
    cases mapGet s.messages id <;> simp

theorem createdUserIds_lb (ops : List Op) :
    ∀ (s : MemStorage) (x : Nat), x ∈ createdUserIds s ops → s.userIdCounter ≤ x := by
  induction ops with
  | nil =>
    intro s x hx
    simp [createdUserIds] at hx
  | cons op ops ih =>
    intro s x hx
    cases op with
    | opCreateUser now d =>
      simp only [createdUserIds] at hx
      rcases List.mem_cons.mp hx with h | h
      · exact Nat.le_of_eq h.symm
      · have h1 := ih _ _ h
        have h2 : (applyOp s (.opCreateUser now d)).userIdCounter
            = s.userIdCounter + 1 := rfl
        omega
    | opCreateItem now d =>
      simp only [createdUserIds] at hx
      exact Nat.le_trans (applyOp_counters_mono s _).1 (ih _ _ hx)
    | opUpdateItem id p =>
      simp only [createdUserIds] at hx
      exact Nat.le_trans (applyOp_counters_mono s _).1 (ih _ _ hx)
    | opDeleteItem id =>
      simp only [createdUserIds] at hx
      exact Nat.le_trans (applyOp_counters_mono s _).1 (ih _ _ hx)
    | opIncrementItemViews id =>
      simp only [createdUserIds] at hx
      exact Nat.le_trans (applyOp_counters_mono s _).1 (ih _ _ hx)
    | opCreateMessage now d =>
      simp only [createdUserIds] at hx
      exact Nat.le_trans (applyOp_counters_mono s _).1 (ih _ _ hx)
    | opMarkMessageAsRead id =>
      simp only [createdUserIds] at hx
      exact Nat.le_trans (applyOp_counters_mono s _).1 (ih _ _ hx)

theorem createdItemIds_lb (ops : List Op) :
    ∀ (s : MemStorage) (x : Nat), x ∈ createdItemIds s ops → s.itemIdCounter ≤ x := by
  induction ops with
  | nil =>
    intro s x hx
    simp [createdItemIds] at hx
  | cons op ops ih =>
    intro s x hx
    cases op with
    | opCreateItem now d =>
      simp only [createdItemIds] at hx
      rcases List.mem_cons.mp hx with h | h
      · exact Nat.le_of_eq h.symm
      · have h1 := ih _ _ h
        have h2 : (applyOp s (.opCreateItem now d)).itemIdCounter
            = s.itemIdCounter + 1 := rfl
        omega
    | opCreateUser now d =>
      simp only [createdItemIds] at hx
      exact Nat.le_trans (applyOp_counters_mono s _).2.1 (ih _ _ hx)
    | opUpdateItem id p =>
      simp only [createdItemIds] at hx
      exact Nat.le_trans (applyOp_counters_mono s _).2.1 (ih _ _ hx)
    | opDeleteItem id =>
      simp only [createdItemIds] at hx
      exact Nat.le_trans (applyOp_counters_mono s _).2.1 (ih _ _ hx)
    | opIncrementItemViews id =>
      simp only [createdItemIds] at hx
      exact Nat.le_trans (applyOp_counters_mono s _).2.1 (ih _ _ hx)
    | opCreateMessage now d =>
      simp only [createdItemIds] at hx
      exact Nat.le_trans (applyOp_counters_mono s _).2.1 (ih _ _ hx)
    | opMarkMessageAsRead id =>
      simp only [createdItemIds] at hx
      exact Nat.le_trans (applyOp_counters_mono s _).2.1 (ih _ _ hx)

theorem createdMessageIds_lb (ops : List Op) :
    ∀ (s : MemStorage) (x : Nat), x ∈ createdMessageIds s ops → s.messageIdCounter ≤ x := by
  induction ops with
  | nil =>
    intro s x hx
    simp [createdMessageIds] at hx
  | cons op ops ih =>
    intro s x hx
    cases op with
    | opCreateMessage now d =>
      simp only [createdMessageIds] at hx
      rcases List.mem_cons.mp hx with h | h
      · exact Nat.le_of_eq h.symm
      · have h1 := ih _ _ h
        have h2 : (applyOp s (.opCreateMessage now d)).messageIdCounter
            = s.messageIdCounter + 1 := rfl
        omega
    | opCreateUser now d =>
      simp only [createdMessageIds] at hx
      exact Nat.le_trans (applyOp_counters_mono s _).2.2 (ih _ _ hx)
    | opCreateItem now d =>
      simp only [createdMessageIds] at hx
      exact Nat.le_trans (applyOp_counters_mono s _).2.2 (ih _ _ hx)
    | opUpdateItem id p =>
      simp only [createdMessageIds] at hx
      exact Nat.le_trans (applyOp_counters_mono s _).2.2 (ih _ _ hx)
    | opDeleteItem id =>
      simp only [createdMessageIds] at hx
      exact Nat.le_trans (applyOp_counters_mono s _).2.2 (ih _ _ hx)
    | opIncrementItemViews id =>
      simp only [createdMessageIds] at hx
      exact Nat.le_trans (applyOp_counters_mono s _).2.2 (ih _ _ hx)
    | opMarkMessageAsRead id =>
      simp only [createdMessageIds] at hx
      exact Nat.le_trans (applyOp_counters_mono s _).2.2 (ih _ _ hx)

theorem createdUserIds_pairwise (ops : List Op) :
    ∀ s : MemStorage, (createdUserIds s ops).Pairwise (· < ·) := by
  induction ops with
  | nil =>
    intro s
    simp [createdUserIds]
  | cons op ops ih =>
    intro s
    cases op with
    | opCreateUser now d =>
      simp only [createdUserIds]
      refine List.Pairwise.cons ?_ (ih _)
      intro y hy
      have hlb := createdUserIds_lb ops (applyOp s (.opCreateUser now d)) y hy
      have hc : (applyOp s (.opCreateUser now d)).userIdCounter
          = s.userIdCounter + 1 := rfl
      have hid : (MemStorage.createUser s now d).1.id = s.userIdCounter := rfl
      omega
    | opCreateItem now d => simpa only [createdUserIds] using ih _
    | opUpdateItem id p => simpa only [createdUserIds] using ih _
    | opDeleteItem id => simpa only [createdUserIds] using ih _
    | opIncrementItemViews id => simpa only [createdUserIds] using ih _
    | opCreateMessage now d => simpa only [createdUserIds] using ih _
    | opMarkMessageAsRead id => simpa only [createdUserIds] using ih _

theorem createdItemIds_pairwise (ops : List Op) :
    ∀ s : MemStorage, (createdItemIds s ops).Pairwise (· < ·) := by
  induction ops with
  | nil =>
    intro s
    simp [createdItemIds]
  | cons op ops ih =>
    intro s
    cases op with
    | opCreateItem now d =>
      simp only [createdItemIds]
      refine List.Pairwise.cons ?_ (ih _)
      intro y hy
      have hlb := createdItemIds_lb ops (applyOp s (.opCreateItem now d)) y hy
      have hc : (applyOp s (.opCreateItem now d)).itemIdCounter
          = s.itemIdCounter + 1 := rfl
      have hid : (MemStorage.createItem s now d).1.id = s.itemIdCounter := rfl
      omega
    | opCreateUser now d => simpa only [createdItemIds] using ih _
    | opUpdateItem id p => simpa only [createdItemIds] using ih _
    | opDeleteItem id => simpa only [createdItemIds] using ih _
    | opIncrementItemViews id => simpa only [createdItemIds] using ih _
    | opCreateMessage now d => simpa only [createdItemIds] using ih _
    | opMarkMessageAsRead id => simpa only [createdItemIds] using ih _

theorem createdMessageIds_pairwise (ops : List Op) :
    ∀ s : MemStorage, (createdMessageIds s ops).Pairwise (· < ·) := by
  induction ops with
  | nil =>
    intro s
    simp [createdMessageIds]
  | cons op ops ih =>
    intro s
    cases op with
    | opCreateMessage now d =>
      simp only [createdMessageIds]
      refine List.Pairwise.cons ?_ (ih _)
      intro y hy
      have hlb := createdMessageIds_lb ops (applyOp s (.opCreateMessage now d)) y hy
      have hc : (applyOp s (.opCreateMessage now d)).messageIdCounter
          = s.messageIdCounter + 1 := rfl
      have hid : (MemStorage.createMessage s now d).1.id = s.messageIdCounter := rfl
      omega
    | opCreateUser now d => simpa only [createdMessageIds] using ih _
    | opCreateItem now d => simpa only [createdMessageIds] using ih _
    | opUpdateItem id p => simpa only [createdMessageIds] using ih _
    | opDeleteItem id => simpa only [createdMessageIds] using ih _
    | opIncrementItemViews id => simpa only [createdMessageIds] using ih _
    | opMarkMessageAsRead id => simpa only [createdMessageIds] using ih _

/-- C3: along every operation sequence, including sequences with
deletions, the IDs assigned to created users, items and messages are each
strictly increasing in creation order, and no ID is ever assigned twice
within its entity type. -/
theorem entity_ids_strictly_increasing_never_reused (s : MemStorage) (ops : List Op) :
    (createdUserIds s ops).Pairwise (· < ·)
    ∧ (createdItemIds s ops).Pairwise (· < ·)
    ∧ (createdMessageIds s ops).Pairwise (· < ·)
    ∧ (createdUserIds s ops).Nodup
    ∧ (createdItemIds s ops).Nodup
    ∧ (createdMessageIds s ops).Nodup :=
  ⟨createdUserIds_pairwise ops s, createdItemIds_pairwise ops s,
   createdMessageIds_pairwise ops s,
   (createdUserIds_pairwise ops s).imp Nat.ne_of_lt,
   (createdItemIds_pairwise ops s).imp Nat.ne_of_lt,
   (createdMessageIds_pairwise ops s).imp Nat.ne_of_lt⟩

/-! ## Claim C4 -/

theorem mergeItem_overwrite_retain (it : Item) (p : ItemPatch) :
    (p.id = none → (MemStorage.mergeItem it p).id = it.id)
    ∧ (∀ v, p.id = some v → (MemStorage.mergeItem it p).id = v)
    ∧ (p.userId = none → (MemStorage.mergeItem it p).userId = it.userId)
    ∧ (∀ v, p.userId = some v → (MemStorage.mergeItem it p).userId = v)
    ∧ (p.name = none → (MemStorage.mergeItem it p).name = it.name)
    ∧ (∀ v, p.name = some v → (MemStorage.mergeItem it p).name = v)
    ∧ (p.type = none → (MemStorage.mergeItem it p).type = it.type)
    ∧ (∀ v, p.type = some v → (MemStorage.mergeItem it p).type = v)
    ∧ (p.description = none → (MemStorage.mergeItem it p).description = it.description)
    ∧ (∀ v, p.description = some v → (MemStorage.mergeItem it p).description = v)
    ∧ (p.status = none → (MemStorage.mergeItem it p).status = it.status)
    ∧ (∀ v, p.status = some v → (MemStorage.mergeItem it p).status = v)
    ∧ (p.date = none → (MemStorage.mergeItem it p).date = it.date)
    ∧ (∀ v, p.date = some v → (MemStorage.mergeItem it p).date = v)
    ∧ (p.location = none → (MemStorage.mergeItem it p).location = it.location)
    ∧ (∀ v, p.location = some v → (MemStorage.mergeItem it p).location = v)
    ∧ (p.locationDetails = none → (MemStorage.mergeItem it p).locationDetails = it.locationDetails)
    ∧ (∀ v, p.locationDetails = some v → (MemStorage.mergeItem it p).locationDetails = v)
    ∧ (p.coordinates = none → (MemStorage.mergeItem it p).coordinates = it.coordinates)
    ∧ (∀ v, p.coordinates = some v → (MemStorage.mergeItem it p).coordinates = v)
    ∧ (p.images = none → (MemStorage.mergeItem it p).images = it.images)
    ∧ (∀ v, p.images = some v → (MemStorage.mergeItem it p).images = v)
    ∧ (p.contactName = none → (MemStorage.mergeItem it p).contactName = it.contactName)
    ∧ (∀ v, p.contactName = some v → (MemStorage.mergeItem it p).contactName = v)
    ∧ (p.contactEmail = none → (MemStorage.mergeItem it p).contactEmail = it.contactEmail)
    ∧ (∀ v, p.contactEmail = some v → (MemStorage.mergeItem it p).contactEmail = v)
    ∧ (p.views = none → (MemStorage.mergeItem it p).views = it.views)
    ∧ (∀ v, p.views = some v → (MemStorage.mergeItem it p).views = v)
    ∧ (p.createdAt = none → (MemStorage.mergeItem it p).createdAt = it.createdAt)
    ∧ (∀ v, p.createdAt = some v → (MemStorage.mergeItem it p).createdAt = v) :=
  ⟨fun h => by simp [MemStorage.mergeItem, h],
   fun v h => by simp [MemStorage.mergeItem, h],
   fun h => by simp [MemStorage.mergeItem, h],
   fun v h => by simp [MemStorage.mergeItem, h],
   fun h => by simp [MemStorage.mergeItem, h],
   fun v h => by simp [MemStorage.mergeItem, h],
   fun h => by simp [MemStorage.mergeItem, h],
   fun v h => by simp [MemStorage.mergeItem, h],
   fun h => by simp [MemStorage.mergeItem, h],
   fun v h => by simp [MemStorage.mergeItem, h],
   fun h => by simp [MemStorage.mergeItem, h],
   fun v h => by simp [MemStorage.mergeItem, h],
   fun h => by simp [MemStorage.mergeItem, h],
   fun v h => by simp [MemStorage.mergeItem, h],
   fun h => by simp [MemStorage.mergeItem, h],
   fun v h => by simp [MemStorage.mergeItem, h],
   fun h => by simp [MemStorage.mergeItem, h],
   fun v h => by simp [MemStorage.mergeItem, h],
   fun h => by simp [MemStorage.mergeItem, h],
   fun v h => by simp [MemStorage.mergeItem, h],
   fun h => by simp [MemStorage.mergeItem, h],
   fun v h => by simp [MemStorage.mergeItem, h],
   fun h => by simp [MemStorage.mergeItem, h],
   fun v h => by simp [MemStorage.mergeItem, h],
   fun h => by simp [MemStorage.mergeItem, h],
   fun v h => by simp [MemStorage.mergeItem, h],
   fun h => by simp [MemStorage.mergeItem, h],
   fun v h => by simp [MemStorage.mergeItem, h],
   fun h => by simp [MemStorage.mergeItem, h],
   fun v h => by simp [MemStorage.mergeItem, h]⟩

/-- C4: updateItem returns the absent result and leaves the store
unchanged when no item has the id; otherwise it stores under the id and
returns the shallow merge of the update payload onto the existing item:
every key present in the payload overwrites that key entirely and every
key absent from the payload keeps its prior value, while all other map
entries and all other store components are unchanged. -/
theorem updateItem_contract (s : MemStorage) (id : Nat) (p : ItemPatch) :
    (mapGet s.items id = none → MemStorage.updateItem s id p = (none, s))
    ∧ (∀ it, mapGet s.items id = some it →
        (MemStorage.updateItem s id p).1 = some (MemStorage.mergeItem it p)
        ∧ mapGet ((MemStorage.updateItem s id p).2).items id = some (MemStorage.mergeItem it p)
        ∧ (∀ k, k ≠ id →
            mapGet ((MemStorage.updateItem s id p).2).items k = mapGet s.items k)
        ∧ ((MemStorage.updateItem s id p).2).users = s.users
        ∧ ((MemStorage.updateItem s id p).2).messages = s.messages
        ∧ ((MemStorage.updateItem s id p).2).userIdCounter = s.userIdCounter
        ∧ ((MemStorage.updateItem s id p).2).itemIdCounter = s.itemIdCounter
        ∧ ((MemStorage.updateItem s id p).2).messageIdCounter = s.messageIdCounter
        ∧ ((p.id = none → (MemStorage.mergeItem it p).id = it.id)
           ∧ (∀ v, p.id = some v → (MemStorage.mergeItem it p).id = v)
           ∧ (p.userId = none → (MemStorage.mergeItem it p).userId = it.userId)
           ∧ (∀ v, p.userId = some v → (MemStorage.mergeItem it p).userId = v)
           ∧ (p.name = none → (MemStorage.mergeItem it p).name = it.name)
           ∧ (∀ v, p.name = some v → (MemStorage.mergeItem it p).name = v)
           ∧ (p.type = none → (MemStorage.mergeItem it p).type = it.type)
           ∧ (∀ v, p.type = some v → (MemStorage.mergeItem it p).type = v)
           ∧ (p.description = none → (MemStorage.mergeItem it p).description = it.description)
           ∧ (∀ v, p.description = some v → (MemStorage.mergeItem it p).description = v)
           ∧ (p.status = none → (MemStorage.mergeItem it p).status = it.status)
           ∧ (∀ v, p.status = some v → (MemStorage.mergeItem it p).status = v)
           ∧ (p.date = none → (MemStorage.mergeItem it p).date = it.date)
           ∧ (∀ v, p.date = some v → (MemStorage.mergeItem it p).date = v)
           ∧ (p.location = none → (MemStorage.mergeItem it p).location = it.location)
           ∧ (∀ v, p.location = some v → (MemStorage.mergeItem it p).location = v)
           ∧ (p.locationDetails = none → (MemStorage.mergeItem it p).locationDetails = it.locationDetails)
           ∧ (∀ v, p.locationDetails = some v → (MemStorage.mergeItem it p).locationDetails = v)
           ∧ (p.coordinates = none → (MemStorage.mergeItem it p).coordinates = it.coordinates)
           ∧ (∀ v, p.coordinates = some v → (MemStorage.mergeItem it p).coordinates = v)
           ∧ (p.images = none → (MemStorage.mergeItem it p).images = it.images)
           ∧ (∀ v, p.images = some v → (MemStorage.mergeItem it p).images = v)
           ∧ (p.contactName = none → (MemStorage.mergeItem it p).contactName = it.contactName)
           ∧ (∀ v, p.contactName = some v → (MemStorage.mergeItem it p).contactName = v)
           ∧ (p.contactEmail = none → (MemStorage.mergeItem it p).contactEmail = it.contactEmail)
           ∧ (∀ v, p.contactEmail = some v → (MemStorage.mergeItem it p).contactEmail = v)
           ∧ (p.views = none → (MemStorage.mergeItem it p).views = it.views)
           ∧ (∀ v, p.views = some v → (MemStorage.mergeItem it p).views = v)
           ∧ (p.createdAt = none → (MemStorage.mergeItem it p).createdAt = it.createdAt)
           ∧ (∀ v, p.createdAt = some v → (MemStorage.mergeItem it p).createdAt = v))) := by
  constructor
  · intro h
    simp [MemStorage.updateItem, h]
  · intro it h
    have hu : MemStorage.updateItem s id p
        = (some (MemStorage.mergeItem it p), { s with items := mapSet s.items id (MemStorage.mergeItem it p) }) := by
      simp [MemStorage.updateItem, h]
    rw [hu]
    exact ⟨rfl, mapGet_mapSet_self _ _ _, fun k hk => mapGet_mapSet_ne _ _ _ _ hk,
      rfl, rfl, rfl, rfl, rfl, mergeItem_overwrite_retain it p⟩

/-- A patch supplying only a new location. -/
def patchLocY : ItemPatch := { ItemPatch.empty with location := some "Y" }

/-- C4 witness: updating the one-item store with a location-only payload
overwrites the location, keeps the name, and updating a missing id
returns the absent result with the store unchanged. -/
theorem updateItem_contract_witness :
    (MemStorage.updateItem st1 1 patchLocY).1 = some (MemStorage.mergeItem itemA patchLocY)
    ∧ (MemStorage.mergeItem itemA patchLocY).location = "Y"
    ∧ (MemStorage.mergeItem itemA patchLocY).name = itemA.name
    ∧ MemStorage.updateItem st1 2 ItemPatch.empty = (none, st1) := by
  have h := (updateItem_contract st1 1 patchLocY).2 itemA (by decide)
  have h0 := (updateItem_contract st1 2 ItemPatch.empty).1 (by decide)
  obtain ⟨h1, _, _, _, _, _, _, _, hblock⟩ := h
  obtain ⟨_, _, _, _, hname, _, _, _, _, _, _, _, _, _, _, hloc, _⟩ := hblock
  exact ⟨h1, hloc "Y" rfl, hname rfl, h0⟩

/-! ## Claim C5 -/

/-- C5: createItem returns an item carrying the next sequential id,
createdAt stamped with the creation time, views zero, images and
locationDetails normalized to the absent marker when omitted, every other
field copied from the input; the item is stored and retrievable via
getItem, and the counter advances. -/
theorem createItem_contract (s : MemStorage) (now : Time) (d : InsertItem) :
    (MemStorage.createItem s now d).1.id = s.itemIdCounter
    ∧ (MemStorage.createItem s now d).1.createdAt = now
    ∧ (MemStorage.createItem s now d).1.views = 0
    ∧ (d.images = none → (MemStorage.createItem s now d).1.images = none)
    ∧ (d.locationDetails = none →
        (MemStorage.createItem s now d).1.locationDetails = none)
    ∧ (MemStorage.createItem s now d).1.userId = d.userId
    ∧ (MemStorage.createItem s now d).1.name = d.name
    ∧ (MemStorage.createItem s now d).1.type = d.type
    ∧ (MemStorage.createItem s now d).1.description = d.description
    ∧ (MemStorage.createItem s now d).1.status = d.status
    ∧ (MemStorage.createItem s now d).1.date = d.date
    ∧ (MemStorage.createItem s now d).1.location = d.location
    ∧ (MemStorage.createItem s now d).1.coordinates = d.coordinates
    ∧ (MemStorage.createItem s now d).1.contactName = d.contactName
    ∧ (MemStorage.createItem s now d).1.contactEmail = d.contactEmail
    ∧ MemStorage.getItem (MemStorage.createItem s now d).2
        (MemStorage.createItem s now d).1.id
        = some (MemStorage.createItem s now d).1
    ∧ (MemStorage.createItem s now d).2.itemIdCounter = s.itemIdCounter + 1 := by
  refine ⟨rfl, rfl, rfl, ?_, ?_, rfl, rfl, rfl, rfl, rfl, rfl, rfl, rfl, rfl, rfl,
    ?_, rfl⟩
  · intro h
    simp [MemStorage.createItem, h]
  · intro h
    simp [MemStorage.createItem, h]
  · exact mapGet_mapSet_self _ _ _

/-- An insert payload omitting images and locationDetails. -/
def insertC : InsertItem :=
  { userId := 1, name := "iPad Pro", type := "Electronics",
    description := "Left my iPad on the metro", status := "lost", date := 0,
    location := "Metro Station, Delhi", locationDetails := none,
    coordinates := none, images := none, contactName := "Amit",
    contactEmail := "amit" }

/-- C5 witness: creating an item that omits images and locationDetails on
the two-item store yields id three, views zero and both optional fields
normalized to the absent marker. -/
theorem createItem_contract_witness :
    (MemStorage.createItem st2 300 insertC).1.images = none
    ∧ (MemStorage.createItem st2 300 insertC).1.locationDetails = none
    ∧ (MemStorage.createItem st2 300 insertC).1.id = 3
    ∧ (MemStorage.createItem st2 300 insertC).1.views = 0 := by
  have h := createItem_contract st2 300 insertC
  exact ⟨h.2.2.2.1 rfl, h.2.2.2.2.1 rfl, by decide, h.2.2.1⟩

/-! ## Claim C6 -/

/-- n consecutive calls of incrementItemViews on the same id. -/
def incViewsN (s : MemStorage) (id : Nat) : Nat → MemStorage
  | 0 => s
  | n + 1 => MemStorage.incrementItemViews (incViewsN s id n) id

theorem incrementItemViews_existing (s : MemStorage) (id : Nat) (it : Item)
    (h : mapGet s.items id = some it) :
    MemStorage.incrementItemViews s id
      = { s with items := mapSet s.items id { it with views := it.views + 1 } } := by
  simp [MemStorage.incrementItemViews, h]

/-- C6: incrementItemViews on an existing item raises its views by exactly
one and changes nothing else, on a missing id it is a no-op on the whole
store, and n consecutive calls raise views by exactly n. -/
theorem incrementItemViews_contract (s : MemStorage) (id : Nat) :
    (mapGet s.items id = none → MemStorage.incrementItemViews s id = s)
    ∧ (∀ it, mapGet s.items id = some it →
        mapGet (MemStorage.incrementItemViews s id).items id
            = some { it with views := it.views + 1 }
        ∧ (∀ k, k ≠ id →
            mapGet (MemStorage.incrementItemViews s id).items k = mapGet s.items k)
        ∧ (MemStorage.incrementItemViews s id).users = s.users
        ∧ (MemStorage.incrementItemViews s id).messages = s.messages
        ∧ (MemStorage.incrementItemViews s id).userIdCounter = s.userIdCounter
        ∧ (MemStorage.incrementItemViews s id).itemIdCounter = s.itemIdCounter
        ∧ (MemStorage.incrementItemViews s id).messageIdCounter = s.messageIdCounter)
    ∧ (∀ it n, mapGet s.items id = some it →
        mapGet (incViewsN s id n).items id = some { it with views := it.views + n }) := by
  refine ⟨?_, ?_, ?_⟩
  · intro h
    simp [MemStorage.incrementItemViews, h]
  · intro it h
    rw [incrementItemViews_existing s id it h]
    exact ⟨mapGet_mapSet_self _ _ _,
      fun k hk => mapGet_mapSet_ne _ _ _ _ hk, rfl, rfl, rfl, rfl, rfl⟩
  · intro it n h
    induction n with
    | zero => simpa [incViewsN] using h
    | succ n ih =>
      rw [show incViewsN s id (n + 1)
            = MemStorage.incrementItemViews (incViewsN s id n) id from rfl,
        incrementItemViews_existing _ _ _ ih]
      exact mapGet_mapSet_self _ _ _

/-- C6 witness: three consecutive calls on the stored item leave views at
three, and a call on a missing id returns the store unchanged. -/
theorem incrementItemViews_contract_witness :
    mapGet (incViewsN st1 1 3).items 1 = some { itemA with views := 3 }
    ∧ MemStorage.incrementItemViews st1 99 = st1 := by
  have h := (incrementItemViews_contract st1 1).2.2 itemA 3 (by decide)
  have h0 := (incrementItemViews_contract st1 99).1 (by decide)
  exact ⟨by simpa using h, h0⟩

/-! ## Claim C7 -/

theorem markMessageAsRead_missing (s : MemStorage) (id : Nat)
    (h : mapGet s.messages id = none) :
    MemStorage.markMessageAsRead s id = (false, s) := by
  simp [MemStorage.markMessageAsRead, h]

theorem markMessageAsRead_existing (s : MemStorage) (id : Nat) (m : Message)
    (h : mapGet s.messages id = some m) :
    MemStorage.markMessageAsRead s id
      = (true, { s with messages := mapSet s.messages id { m with read := true } }) := by
  simp [MemStorage.markMessageAsRead, h]

/-- Every message key is below the message id counter. -/
def msgKeysBounded (s : MemStorage) : Prop :=
  ∀ e ∈ s.messages, e.1 < s.messageIdCounter

theorem msgKeysBounded_init : msgKeysBounded MemStorage.init := by
  intro e he
  simp [MemStorage.init] at he

theorem msgKeysBounded_applyOp (s : MemStorage) (op : Op)
    (h : msgKeysBounded s) : msgKeysBounded (applyOp s op) := by
  cases op with
  | opCreateUser now d => exact h
  | opCreateItem now d => exact h
  | opDeleteItem id => exact h
  | opUpdateItem id p =>
    cases hq : mapGet s.items id with
    | none =>
      have : applyOp s (.opUpdateItem id p) = s := by
        simp [applyOp, MemStorage.updateItem, hq]
      rw [this]
      exact h
    | some it =>
      have : applyOp s (.opUpdateItem id p)
          = { s with items := mapSet s.items id (MemStorage.mergeItem it p) } := by
        simp [applyOp, MemStorage.updateItem, hq]
      rw [this]
      exact h
  | opIncrementItemViews id =>
    cases hq : mapGet s.items id with
    | none =>
      have : applyOp s (.opIncrementItemViews id) = s := by
        simp [applyOp, MemStorage.incrementItemViews, hq]
      rw [this]
      exact h
    | some it =>
      rw [show applyOp s (.opIncrementItemViews id)
          = MemStorage.incrementItemViews s id from rfl,
        incrementItemViews_existing s id it hq]
      exact h
  | opCreateMessage now d =>
    intro e he
    rcases mem_mapSet s.messages s.messageIdCounter _ e he with h1 | h1
    · rw [h1]
      exact Nat.lt_succ_self _
    · exact Nat.lt_succ_of_lt (h e h1)
  | opMarkMessageAsRead id =>
    cases hq : mapGet s.messages id with
    | none =>
      rw [show applyOp s (.opMarkMessageAsRead id)
          = (MemStorage.markMessageAsRead s id).2 from rfl,
        markMessageAsRead_missing s id hq]
      exact h
    | some m =>
      rw [show applyOp s (.opMarkMessageAsRead id)
          = (MemStorage.markMessageAsRead s id).2 from rfl,
        markMessageAsRead_existing s id m hq]
      intro e he
      rcases mem_mapSet s.messages id _ e he with h1 | h1
      · rw [h1]
        exact h (id, m) (mapGet_some_mem s.messages id m hq)
      · exact h e h1

theorem read_still_true_applyOp (s : MemStorage) (op : Op) (mid : Nat) (m : Message)
    (hb : msgKeysBounded s) (hm : mapGet s.messages mid = some m) (hr : m.read = true) :
    ∃ m2, mapGet (applyOp s op).messages mid = some m2 ∧ m2.read = true := by
  cases op with
  | opCreateUser now d => exact ⟨m, hm, hr⟩
  | opCreateItem now d => exact ⟨m, hm, hr⟩
  | opDeleteItem id => exact ⟨m, hm, hr⟩
  | opUpdateItem id p =>
    refine ⟨m, ?_, hr⟩
    cases hq : mapGet s.items id with
    | none =>
      have : applyOp s (.opUpdateItem id p) = s := by
        simp [applyOp, MemStorage.updateItem, hq]
      rw [this]
      exact hm
    | some it =>
      have : applyOp s (.opUpdateItem id p)
          = { s with items := mapSet s.items id (MemStorage.mergeItem it p) } := by
        simp [applyOp, MemStorage.updateItem, hq]
      rw [this]
      exact hm
  | opIncrementItemViews id =>
    refine ⟨m, ?_, hr⟩
    cases hq : mapGet s.items id with
    | none =>
      have : applyOp s (.opIncrementItemViews id) = s := by
        simp [applyOp, MemStorage.incrementItemViews, hq]
      rw [this]
      exact hm
    | some it =>
      rw [show applyOp s (.opIncrementItemViews id)
          = MemStorage.incrementItemViews s id from rfl,
        incrementItemViews_existing s id it hq]
      exact hm
  | opCreateMessage now d =>
    refine ⟨m, ?_, hr⟩
    have hmidlt : mid < s.messageIdCounter := hb _ (mapGet_some_mem _ _ _ hm)
    rw [show (applyOp s (.opCreateMessage now d)).messages
        = mapSet s.messages s.messageIdCounter (MemStorage.createMessage s now d).1
        from rfl,
      mapGet_mapSet_ne _ _ _ _ (Nat.ne_of_lt hmidlt)]
    exact hm
  | opMarkMessageAsRead id =>
    by_cases hid : mid = id
    · subst hid
      refine ⟨{ m with read := true }, ?_, rfl⟩
      rw [show applyOp s (.opMarkMessageAsRead mid)
          = (MemStorage.markMessageAsRead s mid).2 from rfl,
        markMessageAsRead_existing s mid m hm]
      exact mapGet_mapSet_self _ _ _
    · refine ⟨m, ?_, hr⟩
      cases hq : mapGet s.messages id with
      | none =>
        rw [show applyOp s (.opMarkMessageAsRead id)
            = (MemStorage.markMessageAsRead s id).2 from rfl,
          markMessageAsRead_missing s id hq]
        exact hm
      | some mm =>
        rw [show applyOp s (.opMarkMessageAsRead id)
            = (MemStorage.markMessageAsRead s id).2 from rfl,
          markMessageAsRead_existing s id mm hq]
        show mapGet (mapSet s.messages id { mm with read := true }) mid = some m
        rw [mapGet_mapSet_ne _ _ _ _ hid]
        exact hm

theorem msgKeysBounded_applyOps (ops : List Op) :
    ∀ s, msgKeysBounded s → msgKeysBounded (applyOps s ops) := by
  induction ops with
  | nil =>
    intro s h
    exact h
  | cons op ops ih =>
    intro s h
    exact ih _ (msgKeysBounded_applyOp s op h)

theorem read_still_true_applyOps (ops : List Op) :
    ∀ s mid m, msgKeysBounded s → mapGet s.messages mid = some m → m.read = true →
      ∃ m2, mapGet (applyOps s ops).messages mid = some m2 ∧ m2.read = true := by
  induction ops with
  | nil =>
    intro s mid m _ hm hr
    exact ⟨m, hm, hr⟩
  | cons op ops ih =>
    intro s mid m hb hm hr
    obtain ⟨m1, hm1, hr1⟩ := read_still_true_applyOp s op mid m hb hm hr
    exact ih _ _ _ (msgKeysBounded_applyOp s op hb) hm1 hr1

/-- C7: markMessageAsRead returns true and stores the message with read
true whenever the message exists, including when it was already read, in
which case the stored message is unchanged; on a missing id it returns
false and changes nothing; and along every pair of operation runs from the
fresh store, a message whose read field is true keeps it true. -/
theorem markMessageAsRead_contract (s : MemStorage) (id : Nat)
    (ops1 ops2 : List Op) (mid : Nat) :
    (mapGet s.messages id = none → MemStorage.markMessageAsRead s id = (false, s))
    ∧ (∀ m, mapGet s.messages id = some m →
        (MemStorage.markMessageAsRead s id).1 = true
        ∧ mapGet (MemStorage.markMessageAsRead s id).2.messages id
            = some { m with read := true }
        ∧ (m.read = true →
            mapGet (MemStorage.markMessageAsRead s id).2.messages id = some m))
    ∧ (∀ m, mapGet (applyOps MemStorage.init ops1).messages mid = some m →
        m.read = true →
        ∀ m2, mapGet (applyOps (applyOps MemStorage.init ops1) ops2).messages mid
            = some m2 → m2.read = true) := by
  refine ⟨markMessageAsRead_missing s id, ?_, ?_⟩
  · intro m hm
    rw [markMessageAsRead_existing s id m hm]
    refine ⟨rfl, mapGet_mapSet_self _ _ _, ?_⟩
    intro hr
    have hmm : ({ m with read := true } : Message) = m := by
      cases m
      simp_all
    calc mapGet (mapSet s.messages id { m with read := true }) id
        = some { m with read := true } := mapGet_mapSet_self _ _ _
      _ = some m := by rw [hmm]
  · intro m hm hr m2 h2
    obtain ⟨m3, hm3, hr3⟩ := read_still_true_applyOps ops2 _ mid m
      (msgKeysBounded_applyOps ops1 _ msgKeysBounded_init) hm hr
    rw [hm3] at h2
    exact (Option.some.inj h2) ▸ hr3

/-- An already-read message. -/
def msgR : Message :=
  { id := 1, itemId := 1, fromUserId := 1, toUserId := 2,
    content := "is this still available", read := true, createdAt := 50 }

/-- A store holding only the already-read message. -/
def st3 : MemStorage :=
  { users := [], items := [], messages := [(1, msgR)],
    userIdCounter := 1, itemIdCounter := 1, messageIdCounter := 2 }

/-- A message creation payload. -/
def dmsg : InsertMessage :=
  { itemId := 1, fromUserId := 1, toUserId := 2, content := "hello" }

/-- A run creating one message and marking it read. -/
def opsW1 : List Op := [Op.opCreateMessage 10 dmsg, Op.opMarkMessageAsRead 1]

/-- A continuation run creating a second message. -/
def opsW2 : List Op := [Op.opCreateMessage 20 dmsg]

/-- The message produced and marked read by the first run. -/
def msgW : Message :=
  { id := 1, itemId := 1, fromUserId := 1, toUserId := 2,
    content := "hello", read := true, createdAt := 10 }

/-- C7 witness: marking the already-read message returns true and leaves
it unchanged, marking a missing id returns false, and the message marked
read in the first run is still read after the second run. -/
theorem markMessageAsRead_contract_witness :
    (MemStorage.markMessageAsRead st3 1).1 = true
    ∧ mapGet (MemStorage.markMessageAsRead st3 1).2.messages 1 = some msgR
    ∧ MemStorage.markMessageAsRead st3 5 = (false, st3)
    ∧ msgW.read = true := by
  have h := (markMessageAsRead_contract st3 1 opsW1 opsW2 1).2.1 msgR (by decide)
  have h0 := (markMessageAsRead_contract st3 5 opsW1 opsW2 1).1 (by decide)
  have h3 := (markMessageAsRead_contract st3 1 opsW1 opsW2 1).2.2 msgW (by decide)
    rfl msgW (by decide)
  exact ⟨h.1, h.2.2 rfl, h0, h3⟩

/-! ## Claim C8 -/

/-- A PATCH body carrying client-supplied views and createdAt, as the
route layer forwards it unvalidated. -/
def patchClient : ItemPatch :=
  { ItemPatch.empty with views := some 999, createdAt := some 555 }

/-- C8 failing input: the item stored with views zero and createdAt 100 is
updated with a payload carrying views 999 and createdAt 555; updateItem
stores and returns both client-supplied values, so views is set directly
and createdAt mutates after creation. -/
theorem updateItem_accepts_client_views_and_createdAt :
    itemA.views = 0
    ∧ itemA.createdAt = 100
    ∧ mapGet st1.items 1 = some itemA
    ∧ (MemStorage.updateItem st1 1 patchClient).1.map Item.views = some 999
    ∧ (MemStorage.updateItem st1 1 patchClient).1.map Item.createdAt = some 555
    ∧ mapGet ((MemStorage.updateItem st1 1 patchClient).2).items 1
        = some (MemStorage.mergeItem itemA patchClient) := by
  decide

/-! ## Claim C9 -/

/-- C9: every read returns the absent value, not an error, when nothing
matches, and deleteItem returns true exactly when an item with the id
existed, removing it, and false with the store unchanged on a missing
id. -/
theorem reads_and_delete_contract (s : MemStorage) (id : Nat)
    (username email : String) :
    ((∀ e ∈ s.users, e.1 ≠ id) → MemStorage.getUser s id = none)
    ∧ ((∀ u ∈ mapValues s.users, u.username ≠ username) →
        MemStorage.getUserByUsername s username = none)
    ∧ ((∀ u ∈ mapValues s.users, u.email ≠ email) →
        MemStorage.getUserByEmail s email = none)
    ∧ ((∀ e ∈ s.items, e.1 ≠ id) → MemStorage.getItem s id = none)
    ∧ ((∀ e ∈ s.messages, e.1 ≠ id) → MemStorage.getMessage s id = none)
    ∧ (MemStorage.deleteItem s id).1 = (mapGet s.items id).isSome
    ∧ ((s.items.map Prod.fst).Nodup →
        mapGet ((MemStorage.deleteItem s id).2).items id = none)
    ∧ (mapGet s.items id = none → (MemStorage.deleteItem s id).2 = s) := by
  refine ⟨?_, ?_, ?_, ?_, ?_, rfl, ?_, ?_⟩
  · intro h
    have hf : s.users.find? (fun e => e.1 == id) = none :=
      List.find?_eq_none.mpr (fun e he => by simpa using h e he)
    simp [MemStorage.getUser, mapGet, hf]
  · intro h
    exact List.find?_eq_none.mpr (fun u hu => by simpa using h u hu)
  · intro h
    exact List.find?_eq_none.mpr (fun u hu => by simpa using h u hu)
  · intro h
    have hf : s.items.find? (fun e => e.1 == id) = none :=
      List.find?_eq_none.mpr (fun e he => by simpa using h e he)
    simp [MemStorage.getItem, mapGet, hf]
  · intro h
    have hf : s.messages.find? (fun e => e.1 == id) = none :=
      List.find?_eq_none.mpr (fun e he => by simpa using h e he)
    simp [MemStorage.getMessage, mapGet, hf]
  · intro hnd
    exact mapGet_mapDelete_self _ _ hnd
  · intro h
    show ({ s with items := mapDelete s.items id } : MemStorage) = s
    rw [mapDelete_of_get_none _ _ h]

/-- C9 witness: on the one-item store, missing-id reads return the absent
value, deleting the stored item returns true and removes it, and deleting
a missing id returns false leaving the store unchanged. -/
theorem reads_and_delete_contract_witness :
    MemStorage.getUser st1 5 = none
    ∧ MemStorage.getUserByUsername st1 "nobody" = none
    ∧ MemStorage.getItem st1 7 = none
    ∧ (MemStorage.deleteItem st1 1).1 = true
    ∧ mapGet ((MemStorage.deleteItem st1 1).2).items 1 = none
    ∧ (MemStorage.deleteItem st1 9).1 = false
    ∧ (MemStorage.deleteItem st1 9).2 = st1 := by
  have h1 := (reads_and_delete_contract st1 5 "nobody" "x").1 (by decide)
  have h2 := (reads_and_delete_contract st1 5 "nobody" "x").2.1 (by decide)
  have h4 := (reads_and_delete_contract st1 7 "nobody" "x").2.2.2.1 (by decide)
  have h5 := (reads_and_delete_contract st1 1 "nobody" "x").2.2.2.2.2.2.1 (by decide)
  have h6 := (reads_and_delete_contract st1 9 "nobody" "x").2.2.2.2.2.2.2 (by decide)
  exact ⟨h1, h2, h4, by decide, h5, by decide, h6⟩
